import Mathlib

/-!
# OpenMW engine bootstrap (`apps/openmw/engine.cpp`)

A shallow embedding of `OMW::Engine`: its configuration setters, the command
drain `processCommands`, the frame hook, and the bootstrap `go`, followed by
the properties stated about them.

Conventions of the embedding.

* `std::string` and `boost::filesystem::path` values are Lean `String`s.
  `std::string::npos` is `none`.
* `assert (c)` is taken with `NDEBUG` undefined: a false condition aborts the
  call, which is recorded as `Failure.assertion` carrying the asserted text.
* Everything a function does to the outside (console, renderer, file system,
  command server, objects created and released) is appended to a trace of
  `Effect`s, in program order.
* The collaborators whose code is not part of `engine.cpp` answer through a
  `World`: which calls throw, what the directory holds, what `isFile` says.
-/

namespace OMW

/-! ## Strings and paths -/

/-- Index of the last character of `s` that satisfies `p`, `none` if there is none. -/
def findLastIdx (p : Char → Bool) : List Char → Option Nat
  | [] => none
  | c :: cs =>
    match findLastIdx p cs with
    | some i => some (i + 1)
    | none => if p c then some 0 else none

/-- The call `s.find_last_of (chars)` of `std::string`: position of the last character of `s`
that is one of `chars`, `none` for `npos`. -/
def find_last_of (s : String) (chars : String) : Option Nat :=
  findLastIdx (fun c => chars.data.contains c) s.data

/-- Path separator handling of `boost::filesystem` (version 2, POSIX): a slash is added to
a path that does not end in one. -/
def appendSeparatorIfNeeded (p : List Char) : List Char :=
  if p.getLast? = some '/' then p else p ++ ['/']

/-- The operator `/=` of `boost::filesystem::path` (version 2, POSIX), on the string forms:
a leading `//:` of the right operand is dropped, a separator is put between the operands
when both are non-empty and the right one does not start with one, then the right operand
is appended. -/
def pathAppend (p next : String) : String :=
  let n := if next.data.take 3 = ['/', '/', ':'] then next.data.drop 3 else next.data
  let base := if p.data ≠ [] ∧ n ≠ [] ∧ n.head? ≠ some '/' then appendSeparatorIfNeeded p.data
              else p.data
  String.mk (base ++ n)

/-- Last element of a path: what follows the last slash. -/
def leaf (p : String) : List Char :=
  match findLastIdx (fun c => c == '/') p.data with
  | some i => p.data.drop (i + 1)
  | none => p.data

/-- The function `boost::filesystem::extension`: the leaf from its last dot on, empty when the
leaf has no dot. -/
def extension (p : String) : String :=
  match findLastIdx (fun c => c == '.') (leaf p) with
  | some i => String.mk ((leaf p).drop i)
  | none => ""

/-! ## Effects, failures, environment -/

/-- Automatic objects of `go`, in order of declaration. -/
inductive Local
  | esm | store | cell | scene | player | rend | input
  deriving DecidableEq, Repr

/-- What the engine does to the outside, one constructor per kind of call in `engine.cpp`. -/
inductive Effect
  /-- A write to `std::cout`. -/
  | stdout (text : String)
  /-- The call `isFile (path)`. -/
  | isFile (path : String)
  /-- The call `mOgre.configure (showConfig, pluginCfg, autoInit)`. -/
  | ogreConfigure (showConfig : Bool) (pluginCfg : String) (autoInit : Bool)
  /-- The call `addResourceLocation (path, "FileSystem", group, true)` on the renderer root. -/
  | addResourceLocation (path : String)
  /-- Opening `boost::filesystem::directory_iterator` on a directory. -/
  | openDirectory (path : String)
  /-- The call `addBSA (path)`. -/
  | addBSA (path : String)
  /-- The call `esm.open (path)`. -/
  | esmOpen (path : String)
  /-- The call `store.load (esm)`. -/
  | storeLoad
  /-- The call `cell.loadInt (cellName, store, esm)`. -/
  | cellLoadInt (cellName : String)
  /-- The call `mOgre.createWindow (title)`. -/
  | createWindow (title : String)
  /-- Construction of an automatic object. -/
  | construct (l : Local)
  /-- The call `rend.show ()`. -/
  | rendShow
  /-- The call `MWRender::SkyManager::create (window, camera)`. -/
  | skyCreate
  /-- The call `mspCommandServer->start ()`. -/
  | serverStart
  /-- The call `addFrameListener (new ProcessCommandsHook (this))`. -/
  | addFrameListener
  /-- The call `mOgre.start ()`, the render loop. -/
  | ogreStart
  /-- The call `mspCommandServer->stop ()`. -/
  | serverStop
  /-- Destruction of the sky manager behind a non-null pointer by `delete`. -/
  | skyDelete (handle : Nat)
  /-- Destruction of an automatic object at the end of its scope. -/
  | destroy (l : Local)
  deriving DecidableEq, Repr

/-- How a call ends when it does not return normally. -/
inductive Failure
  /-- An `assert` whose condition, given as written in the source, was false. -/
  | assertion (expr : String)
  /-- An exception thrown by the collaborator call `call`. -/
  | exception (call : Effect)
  deriving DecidableEq, Repr

/-- The environment of the engine: the answers of the collaborators and the constants of
`engine.hpp`, none of which is defined in `engine.cpp`. -/
structure World where
  /-- The constant `kCommandServerPort`. -/
  kCommandServerPort : Nat
  /-- Current directory, used by `boost::filesystem::system_complete`. -/
  currentPath : String
  /-- Answer of `isFile`. -/
  isFile : String → Bool
  /-- File names that `directory_iterator` yields for a directory, in its order. -/
  readDir : String → List String
  /-- Pointer that `SkyManager::create` returns. -/
  skyHandle : Nat
  /-- Content of the command queue when the render loop returns: what the command server
  pushed and the frames did not yet drain. -/
  queueAtLoopExit : List String
  /-- Whether a collaborator call throws. -/
  throws : Effect → Bool

/-- The function `boost::filesystem::system_complete` (version 2, POSIX): an empty or rooted
path is returned as is, any other is appended to the current directory. -/
def system_complete (w : World) (p : String) : String :=
  if p.data = [] ∨ p.data.head? = some '/' then p else pathAppend w.currentPath p

/-! ## The engine -/

/-- Modelled from the spec: the class `TsDeque` of `mCommands` is declared outside
`engine.cpp`; per the spec it is "a thread-safe, unbounded FIFO queue of text messages"
whose drain is a "non-blocking poll". Here: the queued messages, oldest first. -/
abbrev TsDeque := List String

/-- Modelled from the spec: `TsDeque::pop_front (msg)`, not defined in `engine.cpp`. On an
empty queue it returns false at once (`none`); otherwise it removes the oldest message,
stores it in `msg` and returns true (`some (msg, rest)`). -/
def TsDeque.pop_front (q : TsDeque) : Option (String × TsDeque) :=
  match q with
  | [] => none
  | msg :: rest => some (msg, rest)

/-- Data members of `OMW::Engine` that `engine.cpp` reads or writes. A null `mpSkyManager`
is `none`. -/
structure Engine where
  mDataDir : String
  mCellName : String
  mMaster : String
  mEnableSky : Bool
  mpSkyManager : Option Nat
  mCommands : TsDeque
  deriving DecidableEq, Repr

/-- Result of a call on an engine: how it ended, the engine as the call left it, and the
effects it performed, in order. -/
structure Outcome where
  result : Except Failure Unit
  engine : Engine
  trace : List Effect

/-- Whether a call returned normally. -/
def Outcome.succeeded (o : Outcome) : Bool :=
  match o.result with
  | .ok _ => true
  | .error _ => false

/-- The failure a call ended with, if any. -/
def Outcome.failure (o : Outcome) : Option Failure :=
  match o.result with
  | .ok _ => none
  | .error f => some f

/-- The constructor `Engine::Engine ()` (a structure cannot hold a member of its own name,
hence `ctor`): sky off, null sky manager pointer, the other members
default-constructed (empty). The command server it creates is not started here. -/
def Engine.ctor : Engine :=
  { mDataDir := "", mCellName := "", mMaster := "", mEnableSky := false,
    mpSkyManager := none, mCommands := [] }

/-- The setter `Engine::setDataDir`. -/
def Engine.setDataDir (w : World) (e : Engine) (dataDir : String) : Outcome :=
  { result := .ok (), engine := { e with mDataDir := system_complete w dataDir }, trace := [] }

/-- The setter `Engine::setCell`. -/
def Engine.setCell (e : Engine) (cellName : String) : Outcome :=
  { result := .ok (), engine := { e with mCellName := cellName }, trace := [] }

/-- The setter `Engine::addMaster`. -/
def Engine.addMaster (e : Engine) (master : String) : Outcome :=
  if e.mMaster.data ≠ [] then
    { result := .error (.assertion "mMaster.empty()"), engine := e, trace := [] }
  else
    let e1 := { e with mMaster := master }
    -- Append .esm if not already there
    let sep := find_last_of e1.mMaster "."
    let e2 := if sep = none then { e1 with mMaster := e1.mMaster ++ ".esm" } else e1
    { result := .ok (), engine := e2, trace := [] }

/-- The setter `Engine::enableSky`. -/
def Engine.enableSky (e : Engine) (bEnable : Bool) : Outcome :=
  { result := .ok (), engine := { e with mEnableSky := bEnable }, trace := [] }

/-- The loop of `Engine::processCommands`: `while (mCommands.pop_front (msg))` followed by
the print of the message. `fuel` bounds the number of evaluations of the loop condition;
`none` means the bound was reached before the loop ended. -/
def Engine.processCommandsLoop : Nat → Engine → List Effect → Option (Engine × List Effect)
  | 0, _, _ => none
  | fuel + 1, e, out =>
    match e.mCommands.pop_front with
    | none => some (e, out)
    | some (msg, rest) =>
      Engine.processCommandsLoop fuel { e with mCommands := rest }
        (out ++ [Effect.stdout ("Command: '" ++ msg ++ "'\n")])

/-- The member `Engine::processCommands`, with a bound on the loop. -/
def Engine.processCommands (fuel : Nat) (e : Engine) : Option Outcome :=
  match Engine.processCommandsLoop fuel e [] with
  | none => none
  | some (e1, out) => some { result := .ok (), engine := e1, trace := out }

/-- The member `ProcessCommandsHook::frameStarted`: drains the commands and returns true, which
tells the renderer to go on. -/
def ProcessCommandsHook.frameStarted (fuel : Nat) (mpEngine : Engine) : Option (Bool × Outcome) :=
  match Engine.processCommands fuel mpEngine with
  | none => none
  | some o => some (true, o)

/-! ## Sequencing of `go` -/

/-- State threaded through the body of `go`: the engine, the effects so far, and the
automatic objects constructed so far, the most recent first. -/
structure St where
  engine : Engine
  trace : List Effect
  locals : List Local

/-- A piece of the body of `go`: from a state to how the piece ended and the state it left. -/
def Run (α : Type) : Type := St → Except Failure α × St

/-- Sequencing: the second piece runs only when the first returned normally. -/
def Run.bind {α β : Type} (m : Run α) (f : α → Run β) : Run β := fun s =>
  match m s with
  | (.ok a, s1) => f a s1
  | (.error err, s1) => (.error err, s1)

instance : Monad Run where
  pure a := fun s => (.ok a, s)
  bind := Run.bind

/-- Read the engine. -/
def getEngine : Run Engine := fun s => (.ok s.engine, s)

/-- Write to the engine. -/
def modifyEngine (f : Engine → Engine) : Run Unit := fun s =>
  (.ok (), { s with engine := f s.engine })

/-- An effect that cannot fail: console output, destruction of an object. -/
def emit (ef : Effect) : Run Unit := fun s =>
  (.ok (), { s with trace := s.trace ++ [ef] })

/-- A collaborator call: it is recorded, and it throws when the environment says so. -/
def call (w : World) (ef : Effect) : Run Unit := fun s =>
  if w.throws ef then (.error (.exception ef), { s with trace := s.trace ++ [ef] })
  else (.ok (), { s with trace := s.trace ++ [ef] })

/-- Definition of an automatic object: its constructor is a collaborator call; once
constructed the object is destroyed when `go` is left. -/
def construct (w : World) (l : Local) : Run Unit := fun s =>
  match call w (.construct l) s with
  | (.ok _, s1) => (.ok (), { s1 with locals := l :: s1.locals })
  | (.error err, s1) => (.error err, s1)

/-- The macro `assert (c)`, with the condition as written in the source. -/
def assert (c : Bool) (expr : String) : Run Unit := fun s =>
  if c then (.ok (), s) else (.error (.assertion expr), s)

/-- The member `Engine::addResourcesDirectory`. -/
def Engine.addResourcesDirectory (w : World) (path : String) : Run Unit :=
  call w (.addResourceLocation path)

/-- The body of the loop of `Engine::loadBSA`, over the entries that remain. -/
def Engine.loadBSAEntries (w : World) (dir : String) : List String → Run Unit
  | [] => pure ()
  | name :: rest => do
    let path := pathAppend dir name
    if extension path = ".bsa" then
      emit (.stdout ("Adding " ++ path ++ "\n"))
      call w (.addBSA path)
    Engine.loadBSAEntries w dir rest

/-- The member `Engine::loadBSA`. -/
def Engine.loadBSA (w : World) : Run Unit := do
  let e ← getEngine
  call w (.openDirectory e.mDataDir)
  Engine.loadBSAEntries w e.mDataDir (w.readDir e.mDataDir)

/-- The statement `delete mpSkyManager;`: nothing for a null pointer, else the sky manager
behind the pointer is destroyed. The pointer itself is left as it is. -/
def deleteSkyManager : Run Unit := do
  let e ← getEngine
  match e.mpSkyManager with
  | none => pure ()
  | some h => emit (.skyDelete h)

/-- The statements of `Engine::go`, in order. -/
def Engine.goBody (w : World) : Run Unit := do
  let e ← getEngine
  assert (e.mDataDir.data != []) "!mDataDir.empty()"
  assert (e.mCellName.data != []) "!mCellName.empty()"
  assert (e.mMaster.data != []) "!mMaster.empty()"
  emit (.stdout "Hello, fellow traveler!\n")
  emit (.stdout ("Your data directory for today is: " ++ e.mDataDir ++ "\n"))
  emit (.stdout "Initializing OGRE\n")
  let plugCfg := "plugins.cfg"
  call w (.isFile "ogre.cfg")
  call w (.ogreConfigure (!w.isFile "ogre.cfg") plugCfg false)
  Engine.addResourcesDirectory w (pathAppend e.mDataDir "Meshes")
  Engine.addResourcesDirectory w (pathAppend e.mDataDir "Textures")
  Engine.loadBSA w
  let masterPath := pathAppend e.mDataDir e.mMaster
  emit (.stdout ("Loading ESM " ++ masterPath ++ "\n"))
  construct w .esm
  construct w .store
  construct w .cell
  -- This parses the ESM file and loads a sample cell
  call w (.esmOpen masterPath)
  call w .storeLoad
  call w (.cellLoadInt e.mCellName)
  -- Create the window
  call w (.createWindow "OpenMW")
  emit (.stdout "\nSetting up cell rendering\n")
  construct w .scene
  construct w .player
  construct w .rend
  call w .rendShow
  -- Optionally enable the sky
  if e.mEnableSky then
    call w .skyCreate
    modifyEngine fun e1 => { e1 with mpSkyManager := some w.skyHandle }
  emit (.stdout "Setting up input system\n")
  construct w .input
  -- Launch the console server
  emit (.stdout ("Starting command server on port " ++ toString w.kCommandServerPort ++ "\n"))
  call w .serverStart
  call w .addFrameListener
  emit (.stdout "\nStart! Press Q/ESC or close window to exit.\n")
  -- Start the main rendering loop
  call w .ogreStart
  modifyEngine fun e1 => { e1 with mCommands := w.queueAtLoopExit }
  call w .serverStop
  deleteSkyManager
  emit (.stdout "\nThat's all for now!\n")

/-- Leaving `go`: after a normal return or an exception the automatic objects are destroyed,
the most recent first; a failed `assert` aborts and destroys nothing. -/
def leaveScope (r : Except Failure Unit) (s : St) : Outcome :=
  match r with
  | .error (.assertion expr) =>
    { result := .error (.assertion expr), engine := s.engine, trace := s.trace }
  | r1 => { result := r1, engine := s.engine, trace := s.trace ++ s.locals.map Effect.destroy }

/-- The member `Engine::go`: initialise and enter the main loop. -/
def Engine.go (w : World) (e : Engine) : Outcome :=
  match Engine.goBody w { engine := e, trace := [], locals := [] } with
  | (r, s) => leaveScope r s

/-! ## Concrete environments and engines used in examples -/

/-- An environment in which no collaborator throws; the data directory holds two archives
among other files, and `ogre.cfg` exists. -/
def World.calm : World :=
  { kCommandServerPort := 27917,
    currentPath := "/home/player",
    isFile := fun p => p = "ogre.cfg",
    readDir := fun _ => ["Morrowind.esm", "Morrowind.bsa", "readme.txt", "Tribunal.bsa"],
    skyHandle := 7,
    queueAtLoopExit := [],
    throws := fun _ => false }

/-- The environment `World.calm` with a master file that cannot be opened. -/
def World.noMaster : World :=
  { World.calm with throws := fun c => c = Effect.esmOpen "/data/Morrowind.esm" }

/-- Scenario A of the spec: directory `/data`, cell "Cave", master "Morrowind". -/
def scenarioA (sky : Bool) : Engine :=
  ((((Engine.ctor.setDataDir World.calm "/data").engine.setCell "Cave").engine.addMaster
    "Morrowind").engine.enableSky sky).engine

/-- The engine of scenario A after this sequence of calls: `enableSky (true)`, a complete run
of `go`, then `enableSky (false)`. It is the engine on which a second `go` starts. -/
def secondRun : Engine :=
  (((scenarioA true).go World.calm).engine.enableSky false).engine


/-! ## Vocabulary of the statements -/

/-- The configuration of an engine: data directory, cell name, master name, sky flag. -/
def Engine.config (e : Engine) : String × String × String × Bool :=
  (e.mDataDir, e.mCellName, e.mMaster, e.mEnableSky)

/-- The archives of a directory: the entries with extension `.bsa`, as paths, in the order
of the directory listing. -/
def archives (w : World) (dir : String) : List String :=
  ((w.readDir dir).map (pathAppend dir)).filter fun path => extension path = ".bsa"

/-- Effects of registering the archives: for each one a console line, then `addBSA`. -/
def archiveEffects (w : World) (dir : String) : List Effect :=
  (archives w dir).flatMap fun path =>
    [Effect.stdout ("Adding " ++ path ++ "\n"), Effect.addBSA path]

/-- The line that `processCommands` prints for a message. -/
def commandLine (msg : String) : Effect :=
  Effect.stdout ("Command: '" ++ msg ++ "'\n")

/-- The trace of a run in which `go` passes its checks and no collaborator throws, for the
engine `e` at entry: every statement of `go` in program order, then the destruction of the
automatic objects in reverse order of construction. -/
def completeRun (w : World) (e : Engine) : List Effect :=
  [ Effect.stdout "Hello, fellow traveler!\n",
    Effect.stdout ("Your data directory for today is: " ++ e.mDataDir ++ "\n"),
    Effect.stdout "Initializing OGRE\n",
    Effect.isFile "ogre.cfg",
    Effect.ogreConfigure (!w.isFile "ogre.cfg") "plugins.cfg" false,
    Effect.addResourceLocation (pathAppend e.mDataDir "Meshes"),
    Effect.addResourceLocation (pathAppend e.mDataDir "Textures"),
    Effect.openDirectory e.mDataDir ]
  ++ archiveEffects w e.mDataDir ++
  [ Effect.stdout ("Loading ESM " ++ pathAppend e.mDataDir e.mMaster ++ "\n"),
    Effect.construct Local.esm,
    Effect.construct Local.store,
    Effect.construct Local.cell,
    Effect.esmOpen (pathAppend e.mDataDir e.mMaster),
    Effect.storeLoad,
    Effect.cellLoadInt e.mCellName,
    Effect.createWindow "OpenMW",
    Effect.stdout "\nSetting up cell rendering\n",
    Effect.construct Local.scene,
    Effect.construct Local.player,
    Effect.construct Local.rend,
    Effect.rendShow ]
  ++ (if e.mEnableSky then [Effect.skyCreate] else []) ++
  [ Effect.stdout "Setting up input system\n",
    Effect.construct Local.input,
    Effect.stdout ("Starting command server on port " ++ toString w.kCommandServerPort ++ "\n"),
    Effect.serverStart,
    Effect.addFrameListener,
    Effect.stdout "\nStart! Press Q/ESC or close window to exit.\n",
    Effect.ogreStart,
    Effect.serverStop ]
  ++ (match (if e.mEnableSky then some w.skyHandle else e.mpSkyManager) with
      | some h => [Effect.skyDelete h]
      | none => []) ++
  [ Effect.stdout "\nThat's all for now!\n",
    Effect.destroy Local.input,
    Effect.destroy Local.rend,
    Effect.destroy Local.player,
    Effect.destroy Local.scene,
    Effect.destroy Local.cell,
    Effect.destroy Local.store,
    Effect.destroy Local.esm ]

/-- What every effect of a run of `go` on the engine `e0` obeys, whether the run completes or
not: a file is opened through the ESM reader only at the master path, `isFile` is asked only
about `ogre.cfg`, the only directory listed is the data directory, and a sky manager is
created only with the sky flag on. -/
def Effect.allowed (e0 : Engine) (x : Effect) : Prop :=
  (∀ p, x = Effect.esmOpen p → p = pathAppend e0.mDataDir e0.mMaster) ∧
  (∀ p, x = Effect.isFile p → p = "ogre.cfg") ∧
  (∀ p, x = Effect.openDirectory p → p = e0.mDataDir) ∧
  (x = Effect.skyCreate → e0.mEnableSky = true)

/-- How a run of `go` on the engine `e0` may fail: by one of its three checks, and then the
checked member is empty, or by an exception of a collaborator call that throws. -/
def Failure.allowed (w : World) (e0 : Engine) : Failure → Prop
  | .assertion expr =>
    (expr = "!mDataDir.empty()" ∧ e0.mDataDir = "") ∨
    (expr = "!mCellName.empty()" ∧ e0.mCellName = "") ∨
    (expr = "!mMaster.empty()" ∧ e0.mMaster = "")
  | .exception c => w.throws c = true

/-- A piece of `go`, started on an engine with the configuration of `e0`, appends to the
trace only effects that satisfy `P`, keeps the configuration, and fails only as `F` allows. -/
def Triple {α : Type} (e0 : Engine) (P : Effect → Prop) (F : Failure → Prop) (m : Run α) :
    Prop :=
  ∀ s : St, s.engine.config = e0.config →
    ∃ l, (m s).2.trace = s.trace ++ l ∧ (∀ x ∈ l, P x) ∧
      (m s).2.engine.config = e0.config ∧ ∀ f, (m s).1 = .error f → F f

/-- The steps of the bootstrap that the lifecycle of the spec names: registering an archive,
opening the master file, loading store and cell, creating the window, creating the sky
manager, constructing the input manager, starting the server, registering the frame hook,
the render loop, stopping the server, releasing the sky manager, and releasing the input
manager and the scene objects. -/
def Effect.isStep : Effect → Bool
  | .addBSA _ => true
  | .esmOpen _ => true
  | .storeLoad => true
  | .cellLoadInt _ => true
  | .createWindow _ => true
  | .skyCreate => true
  | .construct .input => true
  | .serverStart => true
  | .addFrameListener => true
  | .ogreStart => true
  | .serverStop => true
  | .skyDelete _ => true
  | .destroy .input => true
  | .destroy .rend => true
  | .destroy .player => true
  | .destroy .scene => true
  | _ => false

/-- An engine with two queued commands. -/
def twoCommands : Engine :=
  { Engine.ctor with mCommands := ["look", "inventory"] }

/-! ## Lemmas on strings -/

theorem findLastIdx_eq_none_iff (p : Char → Bool) (l : List Char) :
    findLastIdx p l = none ↔ ∀ c ∈ l, p c = false := by
  induction l with
  | nil => simp [findLastIdx]
  | cons a l ih =>
    simp only [findLastIdx, List.mem_cons, forall_eq_or_imp]
    cases h : findLastIdx p l with
    | some i =>
      have : ¬ ∀ c ∈ l, p c = false := fun hall => by simp [ih.mpr hall] at h
      simp [this]
    | none =>
      have hall := ih.mp h
      cases hp : p a
      · simpa using hall
      · simp

theorem find_last_of_dot_eq_none_iff (s : String) :
    find_last_of s "." = none ↔ '.' ∉ s.toList := by
  unfold find_last_of
  rw [findLastIdx_eq_none_iff]
  constructor
  · intro h hmem
    have := h '.' hmem
    simp at this
  · intro h c hc
    have hne : c ≠ '.' := fun heq => h (heq ▸ hc)
    simp [hne]

theorem data_ne_nil_iff (s : String) : s.data ≠ [] ↔ s ≠ "" := by
  constructor
  · intro h heq
    exact h (by rw [heq])
  · intro h heq
    exact h (String.ext heq)

theorem append_esm_data (s : String) : (s ++ ".esm").data = s.data ++ ['.', 'e', 's', 'm'] := by
  rw [String.data_append]

/-! ## Lemmas on the setters -/

theorem addMaster_of_empty (e : Engine) (master : String) (h : e.mMaster = "") :
    e.addMaster master =
      { result := .ok (),
        engine := { e with mMaster := if '.' ∈ master.toList then master else master ++ ".esm" },
        trace := [] } := by
  have hd : e.mMaster.data = [] := by rw [h]
  by_cases hdot : '.' ∈ master.toList
  · have hf : ¬ find_last_of master "." = none := by
      rw [find_last_of_dot_eq_none_iff]; exact not_not.mpr hdot
    rw [if_pos hdot]
    simp [Engine.addMaster, hd, hf]
  · have hf : find_last_of master "." = none := (find_last_of_dot_eq_none_iff master).mpr hdot
    rw [if_neg hdot]
    simp [Engine.addMaster, hd, hf]

theorem addMaster_of_nonempty (e : Engine) (master : String) (h : e.mMaster ≠ "") :
    e.addMaster master =
      { result := .error (.assertion "mMaster.empty()"), engine := e, trace := [] } := by
  have hd : e.mMaster.data ≠ [] := (data_ne_nil_iff _).mpr h
  simp [Engine.addMaster, hd]

theorem normalised_ne_empty (master : String) :
    (if '.' ∈ master.toList then master else master ++ ".esm") ≠ "" := by
  split
  · rename_i h
    intro heq
    rw [heq] at h
    simp at h
  · intro heq
    have := congrArg String.data heq
    rw [append_esm_data] at this
    simp at this

theorem normalised_has_dot (master : String) :
    '.' ∈ (if '.' ∈ master.toList then master else master ++ ".esm").toList := by
  split
  · assumption
  · show '.' ∈ (master ++ ".esm").data
    rw [append_esm_data]
    simp

/-! ## Lemmas on the command drain -/

theorem processCommandsLoop_eq (fuel : Nat) (e : Engine) (out : List Effect)
    (h : e.mCommands.length < fuel) :
    Engine.processCommandsLoop fuel e out =
      some ({ e with mCommands := [] },
        out ++ e.mCommands.map fun msg => Effect.stdout ("Command: '" ++ msg ++ "'\n")) := by
  induction fuel generalizing e out with
  | zero => omega
  | succ n ih =>
    obtain ⟨d, c, m, sk, p, q⟩ := e
    cases q with
    | nil => simp [Engine.processCommandsLoop, TsDeque.pop_front]
    | cons msg rest =>
      simp only [List.length_cons] at h
      simp only [Engine.processCommandsLoop, TsDeque.pop_front]
      rw [ih _ _ (by simpa using Nat.lt_of_succ_lt_succ h)]
      simp


/-! ## Lemmas on `go` when no collaborator throws -/

theorem call_calm (w : World) (hw : ∀ c, w.throws c = false) (ef : Effect) (s : St) :
    call w ef s = (.ok (), { s with trace := s.trace ++ [ef] }) := by
  simp [call, hw]

theorem construct_calm (w : World) (hw : ∀ c, w.throws c = false) (l : Local) (s : St) :
    construct w l s =
      (.ok (), { s with trace := s.trace ++ [.construct l], locals := l :: s.locals }) := by
  simp [construct, call_calm w hw]

theorem bind_apply {α β : Type} (m : Run α) (f : α → Run β) (s : St) :
    (m >>= f) s = match m s with
      | (.ok a, s1) => f a s1
      | (.error err, s1) => (.error err, s1) := rfl

theorem pure_apply {α : Type} (a : α) (s : St) : (pure a : Run α) s = (.ok a, s) := rfl

theorem loadBSAEntries_ok (w : World) (hw : ∀ p, w.throws (.addBSA p) = false) (dir : String)
    (names : List String) (s : St) :
    Engine.loadBSAEntries w dir names s =
      (.ok (), { s with trace := s.trace ++
        (((names.map (pathAppend dir)).filter fun path => extension path = ".bsa").flatMap
          fun path => [Effect.stdout ("Adding " ++ path ++ "\n"), Effect.addBSA path]) }) := by
  induction names generalizing s with
  | nil => simp [Engine.loadBSAEntries, pure_apply]
  | cons name rest ih =>
    by_cases hx : extension (pathAppend dir name) = ".bsa"
    · simp [Engine.loadBSAEntries, bind_apply, hx, emit, call, hw, ih, List.filter_cons]
    · simp [Engine.loadBSAEntries, bind_apply, hx, pure_apply, ih, List.filter_cons]

theorem loadBSA_ok (w : World) (hdir : ∀ p, w.throws (.openDirectory p) = false)
    (hw : ∀ p, w.throws (.addBSA p) = false) (s : St) :
    Engine.loadBSA w s =
      (.ok (), { s with trace := s.trace ++
        (Effect.openDirectory s.engine.mDataDir :: archiveEffects w s.engine.mDataDir) }) := by
  simp [Engine.loadBSA, bind_apply, getEngine, call, hdir, loadBSAEntries_ok w hw,
    archiveEffects, archives]

theorem go_calm (w : World) (hw : ∀ c, w.throws c = false) (e : Engine)
    (hd : e.mDataDir ≠ "") (hc : e.mCellName ≠ "") (hm : e.mMaster ≠ "") :
    e.go w =
      { result := .ok (),
        engine := { e with
          mpSkyManager := if e.mEnableSky then some w.skyHandle else e.mpSkyManager,
          mCommands := w.queueAtLoopExit },
        trace := completeRun w e } := by
  have hd1 := (data_ne_nil_iff _).mpr hd
  have hc1 := (data_ne_nil_iff _).mpr hc
  have hm1 := (data_ne_nil_iff _).mpr hm
  obtain ⟨d, c, m, sky, ptr, q⟩ := e
  cases sky <;> cases ptr <;>
    simp [Engine.go, Engine.goBody, bind_apply, getEngine, assert, hd1, hc1, hm1, emit,
      call_calm w hw, construct_calm w hw, loadBSA_ok w (fun _ => hw _) (fun _ => hw _),
      Engine.addResourcesDirectory,
      modifyEngine, deleteSkyManager, pure_apply, leaveScope, completeRun]


/-! ## Lemmas on `go` in every environment -/

theorem Triple.pure {α : Type} (e0 : Engine) (P : Effect → Prop) (F : Failure → Prop) (a : α) :
    Triple e0 P F (Pure.pure a : Run α) := by
  intro s hs
  exact ⟨[], by simp [pure_apply], by simp, by simpa [pure_apply] using hs,
    by simp [pure_apply]⟩

theorem Triple.bind {α β : Type} {e0 : Engine} {P : Effect → Prop} {F : Failure → Prop}
    {m : Run α} {f : α → Run β} (hm : Triple e0 P F m) (hf : ∀ a, Triple e0 P F (f a)) :
    Triple e0 P F (m >>= f) := by
  intro s hs
  obtain ⟨l, hl, hP, hcfg, hF⟩ := hm s hs
  rw [bind_apply]
  rcases hms : m s with ⟨r, s1⟩
  rw [hms] at hl hcfg hF
  cases r with
  | error err => exact ⟨l, hl, hP, hcfg, fun f hf => hF f (by simpa using hf)⟩
  | ok a =>
    obtain ⟨l2, hl2, hP2, hcfg2, hF2⟩ := hf a s1 hcfg
    refine ⟨l ++ l2, ?_, ?_, hcfg2, fun f hf => hF2 f (by simpa using hf)⟩
    · show (f a s1).2.trace = s.trace ++ (l ++ l2)
      rw [hl2]
      simp only [] at hl
      rw [hl, List.append_assoc]
    · intro x hx
      rcases List.mem_append.mp hx with h | h
      · exact hP x h
      · exact hP2 x h

theorem Triple.bind_getEngine {β : Type} {e0 : Engine} {P : Effect → Prop}
    {F : Failure → Prop} {f : Engine → Run β}
    (hf : ∀ e : Engine, e.config = e0.config → Triple e0 P F (f e)) :
    Triple e0 P F (getEngine >>= f) := by
  intro s hs
  exact hf s.engine hs s hs

theorem Triple.modifyEngine {e0 : Engine} {P : Effect → Prop} {F : Failure → Prop}
    {f : Engine → Engine} (hf : ∀ e, (f e).config = e.config) :
    Triple e0 P F (modifyEngine f) := by
  intro s hs
  exact ⟨[], by simp [OMW.modifyEngine], by simp, by simp [OMW.modifyEngine, hf, hs],
    by simp [OMW.modifyEngine]⟩

theorem Triple.emit {e0 : Engine} {P : Effect → Prop} {F : Failure → Prop} {ef : Effect}
    (h : P ef) : Triple e0 P F (emit ef) := by
  intro s hs
  exact ⟨[ef], by simp [OMW.emit], by simpa using h, by simpa [OMW.emit] using hs,
    by simp [OMW.emit]⟩

theorem Triple.call {e0 : Engine} {P : Effect → Prop} {F : Failure → Prop} {ef : Effect}
    (w : World) (h : P ef) (hF : w.throws ef = true → F (.exception ef)) :
    Triple e0 P F (call w ef) := by
  intro s hs
  refine ⟨[ef], ?_, by simpa using h, ?_, ?_⟩
  · cases ht : w.throws ef <;> simp [OMW.call, ht]
  · cases ht : w.throws ef <;> simpa [OMW.call, ht] using hs
  · cases ht : w.throws ef
    · simp [OMW.call, ht]
    · intro f hf
      simp only [OMW.call, ht, if_true] at hf
      cases hf
      exact hF ht

theorem Triple.construct {e0 : Engine} {P : Effect → Prop} {F : Failure → Prop} {l : Local}
    (w : World) (h : P (.construct l))
    (hF : w.throws (.construct l) = true → F (.exception (.construct l))) :
    Triple e0 P F (construct w l) := by
  intro s hs
  refine ⟨[.construct l], ?_, by simpa using h, ?_, ?_⟩
  · cases ht : w.throws (.construct l) <;> simp [OMW.construct, OMW.call, ht]
  · cases ht : w.throws (.construct l) <;> simpa [OMW.construct, OMW.call, ht] using hs
  · cases ht : w.throws (.construct l)
    · simp [OMW.construct, OMW.call, ht]
    · intro f hf
      simp only [OMW.construct, OMW.call, ht, if_true] at hf
      cases hf
      exact hF ht

theorem Triple.assert {e0 : Engine} {P : Effect → Prop} {F : Failure → Prop} (c : Bool)
    (expr : String) (hF : c = false → F (.assertion expr)) :
    Triple e0 P F (assert c expr) := by
  intro s hs
  refine ⟨[], ?_, by simp, ?_, ?_⟩
  · cases c <;> simp [OMW.assert]
  · cases c <;> simpa [OMW.assert] using hs
  · cases c
    · intro f hf
      simp only [OMW.assert] at hf
      cases hf
      exact hF rfl
    · simp [OMW.assert]

theorem Triple.ite {α : Type} {e0 : Engine} {P : Effect → Prop} {F : Failure → Prop}
    {c : Prop} [Decidable c] {a b : Run α} (ha : c → Triple e0 P F a)
    (hb : ¬ c → Triple e0 P F b) : Triple e0 P F (if c then a else b) := by
  split
  · exact ha (by assumption)
  · exact hb (by assumption)

theorem bne_nil_eq_false_iff (s : String) : (s.data != []) = false ↔ s = "" := by
  constructor
  · intro h
    exact String.ext (by simpa using h)
  · intro h
    simp [h]

theorem loadBSAEntries_triple (w : World) (e0 : Engine) (dir : String) (names : List String) :
    Triple e0 (Effect.allowed e0) (Failure.allowed w e0) (Engine.loadBSAEntries w dir names) := by
  induction names with
  | nil => exact Triple.pure _ _ _ _
  | cons name rest ih =>
    unfold Engine.loadBSAEntries
    dsimp only
    apply Triple.ite
    · intro _
      exact Triple.bind (Triple.emit (by simp [Effect.allowed]))
        (fun _ => Triple.bind (Triple.call w (by simp [Effect.allowed]) (fun h => h))
          (fun _ => ih))
    · intro _
      exact Triple.bind (Triple.pure _ _ _ _) (fun _ => ih)

theorem loadBSA_triple (w : World) (e0 : Engine) :
    Triple e0 (Effect.allowed e0) (Failure.allowed w e0) (Engine.loadBSA w) := by
  unfold Engine.loadBSA
  refine Triple.bind_getEngine (fun e he => ?_)
  have hd : e.mDataDir = e0.mDataDir := congrArg Prod.fst he
  exact Triple.bind (Triple.call w (by simp [Effect.allowed, hd]) (fun h => h))
    (fun _ => loadBSAEntries_triple w e0 _ _)

theorem deleteSkyManager_triple (w : World) (e0 : Engine) :
    Triple e0 (Effect.allowed e0) (Failure.allowed w e0) deleteSkyManager := by
  unfold deleteSkyManager
  refine Triple.bind_getEngine (fun e _ => ?_)
  cases e.mpSkyManager with
  | none => exact Triple.pure _ _ _ _
  | some h => exact Triple.emit (by simp [Effect.allowed])

theorem goBody_triple (w : World) (e0 : Engine) :
    Triple e0 (Effect.allowed e0) (Failure.allowed w e0) (Engine.goBody w) := by
  unfold Engine.goBody
  refine Triple.bind_getEngine (fun e he => ?_)
  have hd : e.mDataDir = e0.mDataDir := congrArg Prod.fst he
  have hc : e.mCellName = e0.mCellName := congrArg (fun c => c.2.1) he
  have hm : e.mMaster = e0.mMaster := congrArg (fun c => c.2.2.1) he
  have hs : e.mEnableSky = e0.mEnableSky := congrArg (fun c => c.2.2.2) he
  repeat' first
    | exact loadBSA_triple w e0
    | exact deleteSkyManager_triple w e0
    | (refine Triple.assert _ _ ?_; rw [bne_nil_eq_false_iff]; intro h
       simp_all [Failure.allowed])
    | exact Triple.pure _ _ _ _
    | (refine Triple.emit ?_; simp [Effect.allowed])
    | (refine Triple.call w ?_ (fun h => h); simp_all [Effect.allowed])
    | (refine Triple.construct w ?_ (fun h => h); simp [Effect.allowed])
    | exact Triple.modifyEngine (fun _ => rfl)
    | apply Triple.ite
    | apply Triple.bind
    | intro _

/-- Every run of `go`, complete or not: its effects obey `Effect.allowed`, the configuration
is the one at entry, and a failure is one that `Failure.allowed` describes. -/
theorem go_allowed (w : World) (e : Engine) :
    (∀ x ∈ (e.go w).trace, Effect.allowed e x) ∧ (e.go w).engine.config = e.config ∧
      ∀ f, (e.go w).failure = some f → Failure.allowed w e f := by
  obtain ⟨l, hl, hP, hcfg, hF⟩ := goBody_triple w e { engine := e, trace := [], locals := [] } rfl
  unfold Engine.go
  rcases hb : Engine.goBody w { engine := e, trace := [], locals := [] } with ⟨r, s1⟩
  rw [hb] at hl hcfg hF
  simp only [List.nil_append] at hl
  have hdestroy : ∀ x ∈ s1.locals.map Effect.destroy, Effect.allowed e x := by
    intro x hx
    obtain ⟨loc, _, rfl⟩ := List.mem_map.mp hx
    simp [Effect.allowed]
  have htrace : ∀ x ∈ s1.trace, Effect.allowed e x := by
    intro x hx
    exact hP x (by simpa [hl] using hx)
  cases r with
  | ok u =>
    refine ⟨?_, hcfg, ?_⟩
    · intro x hx
      simp only [leaveScope, List.mem_append] at hx
      rcases hx with h | h
      · exact htrace x h
      · exact hdestroy x h
    · intro f hf
      simp [leaveScope, Outcome.failure] at hf
  | error err =>
    have herr := hF err rfl
    cases err with
    | assertion expr =>
      refine ⟨?_, hcfg, ?_⟩
      · intro x hx
        exact htrace x (by simpa [leaveScope] using hx)
      · intro f hf
        simp only [leaveScope, Outcome.failure, Option.some.injEq] at hf
        exact hf ▸ herr
    | exception c =>
      refine ⟨?_, hcfg, ?_⟩
      · intro x hx
        simp only [leaveScope, List.mem_append] at hx
        rcases hx with h | h
        · exact htrace x h
        · exact hdestroy x h
      · intro f hf
        simp only [leaveScope, Outcome.failure, Option.some.injEq] at hf
        exact hf ▸ herr


/-- When no call other than `esm.open` on the master path throws, `go` reaches that call,
whether the call then succeeds or not. -/
theorem go_reaches_open (w : World) (e : Engine)
    (hd : e.mDataDir ≠ "") (hc : e.mCellName ≠ "") (hm : e.mMaster ≠ "")
    (hpre : ∀ c, c ≠ Effect.esmOpen (pathAppend e.mDataDir e.mMaster) → w.throws c = false) :
    Effect.esmOpen (pathAppend e.mDataDir e.mMaster) ∈ (e.go w).trace := by
  cases ht : w.throws (Effect.esmOpen (pathAppend e.mDataDir e.mMaster)) with
  | false =>
    have hw : ∀ c, w.throws c = false := by
      intro c
      by_cases hcq : c = Effect.esmOpen (pathAppend e.mDataDir e.mMaster)
      · rw [hcq]; exact ht
      · exact hpre c hcq
    rw [go_calm w hw e hd hc hm]
    simp [completeRun]
  | true =>
    have hd1 := (data_ne_nil_iff _).mpr hd
    have hc1 := (data_ne_nil_iff _).mpr hc
    have hm1 := (data_ne_nil_iff _).mpr hm
    have h1 : w.throws (Effect.isFile "ogre.cfg") = false := hpre _ (by simp)
    have h2 : ∀ a b c, w.throws (Effect.ogreConfigure a b c) = false :=
      fun a b c => hpre _ (by simp)
    have h3 : ∀ p, w.throws (Effect.addResourceLocation p) = false := fun p => hpre _ (by simp)
    have h4 : ∀ p, w.throws (Effect.openDirectory p) = false := fun p => hpre _ (by simp)
    have h5 : ∀ p, w.throws (Effect.addBSA p) = false := fun p => hpre _ (by simp)
    have h6 : ∀ l, w.throws (Effect.construct l) = false := fun l => hpre _ (by simp)
    simp [Engine.go, Engine.goBody, bind_apply, getEngine, assert, hd1, hc1, hm1, emit,
      call, construct, h1, h2, h3, h6, ht, loadBSA_ok w h4 h5, Engine.addResourcesDirectory,
      leaveScope]

theorem archiveEffects_steps (w : World) (dir : String) :
    (archiveEffects w dir).filter Effect.isStep = (archives w dir).map Effect.addBSA := by
  unfold archiveEffects
  induction archives w dir with
  | nil => rfl
  | cons a l ih => simp [List.flatMap_cons, List.filter_cons, Effect.isStep, ih]


/-! ## The command drain -/

/-- C1: with the queue holding the messages p1, ..., pn and no producer running,
`processCommands` ends as soon as the bound on its loop exceeds n, has then printed exactly
one `Command:` line per message in queue order, and leaves the queue empty (nothing is
printed for n = 0); the frame hook does the same and tells the renderer to continue. -/
theorem processCommands_drains_in_order (e : Engine) (fuel : Nat)
    (h : e.mCommands.length < fuel) :
    e.processCommands fuel =
        some { result := .ok (), engine := { e with mCommands := [] },
               trace := e.mCommands.map commandLine } ∧
      ProcessCommandsHook.frameStarted fuel e =
        some (true, { result := .ok (), engine := { e with mCommands := [] },
                      trace := e.mCommands.map commandLine }) := by
  have hloop := processCommandsLoop_eq fuel e [] h
  constructor
  · simp only [Engine.processCommands, hloop, List.nil_append]
    rfl
  · simp only [ProcessCommandsHook.frameStarted, Engine.processCommands, hloop,
      List.nil_append]
    rfl

theorem processCommands_drains_in_order_witness :
    twoCommands.mCommands.length < 3 ∧
      (twoCommands.processCommands 3 =
          some { result := .ok (), engine := { twoCommands with mCommands := [] },
                 trace := twoCommands.mCommands.map commandLine } ∧
        ProcessCommandsHook.frameStarted 3 twoCommands =
          some (true, { result := .ok (), engine := { twoCommands with mCommands := [] },
                        trace := twoCommands.mCommands.map commandLine })) :=
  ⟨by decide, processCommands_drains_in_order twoCommands 3 (by decide)⟩

/-! ## Preconditions of `go` -/

/-- C2: when the data directory, the cell name or the master name is empty, `go` fails at
one of its three checks, and it has then performed no effect and changed nothing. -/
theorem go_fails_fast_on_empty_field (w : World) (e : Engine)
    (h : e.mDataDir = "" ∨ e.mCellName = "" ∨ e.mMaster = "") :
    (∃ expr, (e.go w).result = .error (.assertion expr) ∧
      expr ∈ ["!mDataDir.empty()", "!mCellName.empty()", "!mMaster.empty()"]) ∧
    (e.go w).trace = [] ∧ (e.go w).engine = e := by
  by_cases hd : e.mDataDir = ""
  · refine ⟨⟨"!mDataDir.empty()", ?_, by simp⟩, ?_, ?_⟩ <;>
      simp [Engine.go, Engine.goBody, bind_apply, getEngine, assert, hd, leaveScope]
  · have hd1 := (data_ne_nil_iff _).mpr hd
    by_cases hc : e.mCellName = ""
    · refine ⟨⟨"!mCellName.empty()", ?_, by simp⟩, ?_, ?_⟩ <;>
        simp [Engine.go, Engine.goBody, bind_apply, getEngine, assert, hd1, hc, leaveScope]
    · have hc1 := (data_ne_nil_iff _).mpr hc
      have hm : e.mMaster = "" := by
        rcases h with h | h | h
        · exact absurd h hd
        · exact absurd h hc
        · exact h
      refine ⟨⟨"!mMaster.empty()", ?_, by simp⟩, ?_, ?_⟩ <;>
        simp [Engine.go, Engine.goBody, bind_apply, getEngine, assert, hd1, hc1, hm,
          leaveScope]

theorem go_fails_fast_on_empty_field_witness :
    (((scenarioA false).setCell "").engine.mDataDir = "" ∨
       ((scenarioA false).setCell "").engine.mCellName = "" ∨
       ((scenarioA false).setCell "").engine.mMaster = "") ∧
    ((∃ expr, (((scenarioA false).setCell "").engine.go World.calm).result =
          .error (.assertion expr) ∧
        expr ∈ ["!mDataDir.empty()", "!mCellName.empty()", "!mMaster.empty()"]) ∧
      (((scenarioA false).setCell "").engine.go World.calm).trace = [] ∧
      (((scenarioA false).setCell "").engine.go World.calm).engine =
        ((scenarioA false).setCell "").engine) :=
  ⟨Or.inr (Or.inl (by decide)),
    go_fails_fast_on_empty_field World.calm ((scenarioA false).setCell "").engine
      (Or.inr (Or.inl (by decide)))⟩

/-! ## The master name -/

/-- C3: on an engine with no master set, `addMaster` stores the name followed by `.esm`
when the name has no dot, and the name itself when it has one; nothing else changes. -/
theorem addMaster_normalises_extension (e : Engine) (name : String) (h : e.mMaster = "") :
    ('.' ∉ name.toList →
      e.addMaster name =
        { result := .ok (), engine := { e with mMaster := name ++ ".esm" }, trace := [] }) ∧
    ('.' ∈ name.toList →
      e.addMaster name =
        { result := .ok (), engine := { e with mMaster := name }, trace := [] }) := by
  rw [addMaster_of_empty e name h]
  constructor
  · intro hdot
    rw [if_neg hdot]
  · intro hdot
    rw [if_pos hdot]

theorem addMaster_normalises_extension_witness :
    Engine.ctor.mMaster = "" ∧
      (Engine.ctor.addMaster "foo").engine.mMaster = "foo.esm" ∧
      (Engine.ctor.addMaster "foo.bar").engine.mMaster = "foo.bar" :=
  ⟨rfl,
    congrArg (fun o => o.engine.mMaster)
      ((addMaster_normalises_extension Engine.ctor "foo" rfl).1 (by decide)),
    congrArg (fun o => o.engine.mMaster)
      ((addMaster_normalises_extension Engine.ctor "foo.bar" rfl).2 (by decide))⟩

/-- C4: on a fresh engine `addMaster (a)` succeeds and a following `addMaster (b)` fails at
the check `mMaster.empty()`; the failed call changes nothing, so the stored master is
still the normalised form of `a`. -/
theorem addMaster_twice_fails_keeps_first (a b : String) :
    (Engine.ctor.addMaster a).result = .ok () ∧
    ((Engine.ctor.addMaster a).engine.addMaster b).result =
      .error (.assertion "mMaster.empty()") ∧
    ((Engine.ctor.addMaster a).engine.addMaster b).engine = (Engine.ctor.addMaster a).engine ∧
    ((Engine.ctor.addMaster a).engine.addMaster b).engine.mMaster =
      (if '.' ∈ a.toList then a else a ++ ".esm") := by
  have h1 := addMaster_of_empty Engine.ctor a rfl
  have hne : (Engine.ctor.addMaster a).engine.mMaster ≠ "" := by
    rw [h1]
    exact normalised_ne_empty a
  have h2 := addMaster_of_nonempty (Engine.ctor.addMaster a).engine b hne
  refine ⟨by rw [h1], by rw [h2], by rw [h2], ?_⟩
  rw [h2, h1]

/-- C10: for every string `s`, the empty one included, `addMaster (s)` on a fresh engine
succeeds and stores a name that is not empty and has a dot; for the empty string it stores
`.esm`; storing the stored name again gives the same name; and `go` on an engine with that
master never fails at its check of the master name. -/
theorem addMaster_stores_nonempty_dotted (s : String) :
    (Engine.ctor.addMaster s).result = .ok () ∧
    (Engine.ctor.addMaster s).engine.mMaster ≠ "" ∧
    '.' ∈ (Engine.ctor.addMaster s).engine.mMaster.toList ∧
    (Engine.ctor.addMaster "").engine.mMaster = ".esm" ∧
    (Engine.ctor.addMaster (Engine.ctor.addMaster s).engine.mMaster).engine.mMaster =
      (Engine.ctor.addMaster s).engine.mMaster ∧
    ∀ (w : World) (e : Engine), e.mMaster = (Engine.ctor.addMaster s).engine.mMaster →
      (e.go w).failure ≠ some (.assertion "!mMaster.empty()") := by
  have h1 := addMaster_of_empty Engine.ctor s rfl
  have hne : (Engine.ctor.addMaster s).engine.mMaster ≠ "" := by
    rw [h1]
    exact normalised_ne_empty s
  have hdot : '.' ∈ (Engine.ctor.addMaster s).engine.mMaster.toList := by
    rw [h1]
    exact normalised_has_dot s
  refine ⟨by rw [h1], hne, hdot, by decide, ?_, ?_⟩
  · rw [addMaster_of_empty Engine.ctor _ rfl]
    simp only [if_pos hdot]
  · intro w e he hfail
    have hall := (go_allowed w e).2.2 _ hfail
    simp only [Failure.allowed] at hall
    rcases hall with ⟨hx, _⟩ | ⟨hx, _⟩ | ⟨_, hx⟩
    · exact absurd hx (by decide)
    · exact absurd hx (by decide)
    · exact hne (he ▸ hx)


/-! ## Setters and the lifecycle -/

/-- C5, as the code has it: the setters do not look at the lifecycle. In the state that a run
of `go` which passed its checks leaves behind (returned or thrown), `addMaster` fails at its
check `mMaster.empty()` and changes nothing, while `setDataDir`, `setCell` and `enableSky`
succeed and overwrite their member, leaving the other members as they are. -/
theorem setters_after_go (w : World) (e : Engine)
    (hd : e.mDataDir ≠ "") (hc : e.mCellName ≠ "") (hm : e.mMaster ≠ "") :
    (∀ expr, (e.go w).failure ≠ some (.assertion expr)) ∧
    (e.go w).engine.config = e.config ∧
    (∀ name, (e.go w).engine.addMaster name =
      { result := .error (.assertion "mMaster.empty()"), engine := (e.go w).engine,
        trace := [] }) ∧
    (∀ dir, (e.go w).engine.setDataDir w dir =
      { result := .ok (),
        engine := { (e.go w).engine with mDataDir := system_complete w dir },
        trace := [] }) ∧
    (∀ cell, (e.go w).engine.setCell cell =
      { result := .ok (), engine := { (e.go w).engine with mCellName := cell },
        trace := [] }) ∧
    (∀ b, (e.go w).engine.enableSky b =
      { result := .ok (), engine := { (e.go w).engine with mEnableSky := b },
        trace := [] }) := by
  have hcfg := (go_allowed w e).2.1
  have hm2 : (e.go w).engine.mMaster ≠ "" := by
    have : (e.go w).engine.mMaster = e.mMaster := congrArg (fun c => c.2.2.1) hcfg
    rw [this]
    exact hm
  refine ⟨?_, hcfg, fun name => addMaster_of_nonempty _ name hm2, fun _ => rfl,
    fun _ => rfl, fun _ => rfl⟩
  intro expr hfail
  have hall := (go_allowed w e).2.2 _ hfail
  simp only [Failure.allowed] at hall
  rcases hall with ⟨_, hx⟩ | ⟨_, hx⟩ | ⟨_, hx⟩
  · exact hd hx
  · exact hc hx
  · exact hm hx

theorem setters_after_go_witness :
    (scenarioA true).mDataDir ≠ "" ∧ (scenarioA true).mCellName ≠ "" ∧
    (scenarioA true).mMaster ≠ "" ∧
    ((scenarioA true).go World.calm).engine.config = (scenarioA true).config ∧
    (((scenarioA true).go World.calm).engine.addMaster "Tribunal").failure =
      some (.assertion "mMaster.empty()") ∧
    (((scenarioA true).go World.calm).engine.setCell "Balmora").engine.mCellName = "Balmora" :=
  ⟨by decide, by decide, by decide,
    (setters_after_go World.calm (scenarioA true) (by decide) (by decide) (by decide)).2.1,
    congrArg Outcome.failure
      ((setters_after_go World.calm (scenarioA true) (by decide) (by decide)
        (by decide)).2.2.1 "Tribunal"),
    congrArg (fun o => o.engine.mCellName)
      ((setters_after_go World.calm (scenarioA true) (by decide) (by decide)
        (by decide)).2.2.2.2.1 "Balmora")⟩

/-- C5 as stated fails: after a complete run of `go` on the engine of scenario A, `setCell`,
`setDataDir` and `enableSky` each return normally and change the configuration. -/
theorem setters_after_go_counterexample :
    ((scenarioA false).go World.calm).succeeded = true ∧
    ¬ ((((scenarioA false).go World.calm).engine.setCell "Balmora").succeeded = false ∧
        (((scenarioA false).go World.calm).engine.setCell "Balmora").engine.config =
          ((scenarioA false).go World.calm).engine.config) ∧
    ¬ ((((scenarioA false).go World.calm).engine.setDataDir World.calm "/mods").succeeded
          = false ∧
        (((scenarioA false).go World.calm).engine.setDataDir World.calm "/mods").engine.config =
          ((scenarioA false).go World.calm).engine.config) ∧
    ¬ ((((scenarioA false).go World.calm).engine.enableSky true).succeeded = false ∧
        (((scenarioA false).go World.calm).engine.enableSky true).engine.config =
          ((scenarioA false).go World.calm).engine.config) := by
  decide

/-! ## The master path -/

/-- C6: for a configuration that passes the checks of `go`, the only path ever handed to
`esm.open` is the data directory joined with the stored master name; `go` asks `isFile` about
nothing but the literal `ogre.cfg` and lists nothing but the data directory, so it makes no
existence check on the master path; and when no other call throws, `esm.open` is reached
with that path whether or not the file can be opened. -/
theorem go_opens_dataDir_slash_master (w : World) (e : Engine)
    (hd : e.mDataDir ≠ "") (hc : e.mCellName ≠ "") (hm : e.mMaster ≠ "") :
    (∀ p, Effect.esmOpen p ∈ (e.go w).trace → p = pathAppend e.mDataDir e.mMaster) ∧
    (∀ p, Effect.isFile p ∈ (e.go w).trace → p = "ogre.cfg") ∧
    (∀ p, Effect.openDirectory p ∈ (e.go w).trace → p = e.mDataDir) ∧
    ((∀ c, c ≠ Effect.esmOpen (pathAppend e.mDataDir e.mMaster) → w.throws c = false) →
      Effect.esmOpen (pathAppend e.mDataDir e.mMaster) ∈ (e.go w).trace) := by
  have hall := (go_allowed w e).1
  exact ⟨fun p hp => (hall _ hp).1 p rfl, fun p hp => (hall _ hp).2.1 p rfl,
    fun p hp => (hall _ hp).2.2.1 p rfl, go_reaches_open w e hd hc hm⟩

theorem go_opens_dataDir_slash_master_witness :
    (scenarioA false).mDataDir ≠ "" ∧ (scenarioA false).mCellName ≠ "" ∧
    (scenarioA false).mMaster ≠ "" ∧
    (scenarioA false).mDataDir = "/data" ∧ (scenarioA false).mMaster = "Morrowind.esm" ∧
    Effect.esmOpen "/data/Morrowind.esm" ∈ ((scenarioA false).go World.noMaster).trace ∧
    ((scenarioA false).go World.noMaster).failure =
      some (.exception (.esmOpen "/data/Morrowind.esm")) :=
  ⟨by decide, by decide, by decide, by decide, by decide,
    (go_opens_dataDir_slash_master World.noMaster (scenarioA false) (by decide) (by decide)
      (by decide)).2.2.2 (fun c hc => decide_eq_false hc),
    by decide⟩


/-! ## Order of the bootstrap -/

/-- On an engine whose sky manager pointer is null at entry, as in every first run, a run of
`go` that passes the checks and in which no collaborator throws returns normally, its trace
is `completeRun`, and the steps that the lifecycle names occur in this order, each once: the
archives are registered, the master file is opened, store and cell are loaded, the window
is created, the sky manager (with the flag on) and then the input manager are constructed,
the command server is started, the frame hook is registered, the render loop runs, the
command server is stopped, the sky manager created in this run is released, and then the
input manager and the scene objects are released. -/
theorem go_steps_in_order_of_null_sky (w : World) (e : Engine)
    (hd : e.mDataDir ≠ "") (hc : e.mCellName ≠ "") (hm : e.mMaster ≠ "")
    (hw : ∀ c, w.throws c = false) (hsky : e.mpSkyManager = none) :
    (e.go w).result = .ok () ∧
    (e.go w).trace = completeRun w e ∧
    (e.go w).trace.filter Effect.isStep =
      (archives w e.mDataDir).map Effect.addBSA ++
      [ Effect.esmOpen (pathAppend e.mDataDir e.mMaster),
        Effect.storeLoad,
        Effect.cellLoadInt e.mCellName,
        Effect.createWindow "OpenMW" ] ++
      (if e.mEnableSky then [Effect.skyCreate] else []) ++
      [ Effect.construct Local.input,
        Effect.serverStart,
        Effect.addFrameListener,
        Effect.ogreStart,
        Effect.serverStop ] ++
      (if e.mEnableSky then [Effect.skyDelete w.skyHandle] else []) ++
      [ Effect.destroy Local.input,
        Effect.destroy Local.rend,
        Effect.destroy Local.player,
        Effect.destroy Local.scene ] := by
  rw [go_calm w hw e hd hc hm]
  refine ⟨rfl, rfl, ?_⟩
  obtain ⟨d, c, m, sky, ptr, q⟩ := e
  simp only at hsky
  subst hsky
  cases sky <;>
    simp [completeRun, List.filter_append, List.filter_cons, Effect.isStep,
      archiveEffects_steps]

theorem go_steps_in_order_of_null_sky_example :
    (scenarioA true).mDataDir ≠ "" ∧ (scenarioA true).mCellName ≠ "" ∧
    (scenarioA true).mMaster ≠ "" ∧ (∀ c, World.calm.throws c = false) ∧
    (scenarioA true).mpSkyManager = none ∧
    ((scenarioA true).go World.calm).trace.filter Effect.isStep =
      [ Effect.addBSA "/data/Morrowind.bsa",
        Effect.addBSA "/data/Tribunal.bsa",
        Effect.esmOpen "/data/Morrowind.esm",
        Effect.storeLoad,
        Effect.cellLoadInt "Cave",
        Effect.createWindow "OpenMW",
        Effect.skyCreate,
        Effect.construct Local.input,
        Effect.serverStart,
        Effect.addFrameListener,
        Effect.ogreStart,
        Effect.serverStop,
        Effect.skyDelete 7,
        Effect.destroy Local.input,
        Effect.destroy Local.rend,
        Effect.destroy Local.player,
        Effect.destroy Local.scene ] :=
  ⟨by decide, by decide, by decide, fun _ => rfl, by decide,
    (go_steps_in_order_of_null_sky World.calm (scenarioA true) (by decide) (by decide)
      (by decide) (fun _ => rfl) (by decide)).2.2.trans (by decide)⟩

/-- C8 fails on a second run. In scenario A with the sky on, the first run of `go` creates
the sky manager 7 and releases it, and line 185 leaves the pointer as it was. After
`enableSky (false)` the engine passes the checks of `go` and still holds the pointer 7. In the
second run, in which no collaborator throws, no sky manager is constructed, and after the
command server is stopped the statement `delete mpSkyManager` releases the sky manager 7 a
second time. -/
theorem go_second_run_releases_sky_manager_again :
    ((scenarioA true).go World.calm).succeeded = true ∧
    ((scenarioA true).go World.calm).trace.count (Effect.skyDelete 7) = 1 ∧
    ((scenarioA true).go World.calm).engine.mpSkyManager = some 7 ∧
    secondRun.mDataDir ≠ "" ∧ secondRun.mCellName ≠ "" ∧ secondRun.mMaster ≠ "" ∧
    secondRun.mEnableSky = false ∧ secondRun.mpSkyManager = some 7 ∧
    (∀ c, World.calm.throws c = false) ∧
    (secondRun.go World.calm).succeeded = true ∧
    Effect.skyCreate ∉ (secondRun.go World.calm).trace ∧
    (secondRun.go World.calm).trace.filter Effect.isStep =
      [ Effect.addBSA "/data/Morrowind.bsa",
        Effect.addBSA "/data/Tribunal.bsa",
        Effect.esmOpen "/data/Morrowind.esm",
        Effect.storeLoad,
        Effect.cellLoadInt "Cave",
        Effect.createWindow "OpenMW",
        Effect.construct Local.input,
        Effect.serverStart,
        Effect.addFrameListener,
        Effect.ogreStart,
        Effect.serverStop,
        Effect.skyDelete 7,
        Effect.destroy Local.input,
        Effect.destroy Local.rend,
        Effect.destroy Local.player,
        Effect.destroy Local.scene ] := by
  refine ⟨by decide, by decide, by decide, by decide, by decide, by decide, by decide,
    by decide, fun _ => rfl, by decide, by decide, by decide⟩

/-! ## The sky manager -/

end OMW
